import Mathlib

/-!
Verification of the shift-scheduling core of `src/App.tsx` (shift_light).

The scheduler, calendar utilities and the supply/demand feasibility checker are
embedded shallowly:

* JS `Date` arithmetic is abstracted by a `Config` carrying `daysInMonth` and
  the weekday of day 1 (Sunday = 0, exactly the value `new Date(y, m, 1).getDay()`
  returns); `mkConfig` derives both from a Gregorian (year, 0-based month) pair
  the way the source's `getDaysInMonth` / `getDay` do.
* A worker's requested days off (`dayOffs`, ISO date strings in the source) are
  modelled as the set of day-of-month numbers of the target month they denote.
* Weekday names (Japanese strings in the source) are modelled as the underlying
  `getDay()` numbers, Sunday = 0.
* The mutable `assignments` / `weeklyCounts` / `monthlyCounts` /
  `remainingDemand` records are a `SchedState` of total functions, updated
  functionally.
* The candidate sort uses the comparator
  `remB - remA`, then `weekB - weekA`, then `Math.random() - 0.5`.  That
  comparator is not a consistent comparison function, so by the ECMAScript
  specification the resulting order (hence `candidates[0]`) is
  implementation-defined; the model therefore makes the selected candidate an
  explicit parameter: a stream of numbers (`choice`), one consumed per
  successful assignment, indexing into the filtered candidate list.
* The two `while` loops are implemented with explicit fuel equal to the value
  that provably bounds their iteration count in the source: the remaining
  demand for Pass 1, and the total remaining quota for Pass 2; both strictly
  decrease on every successful iteration of the corresponding source loop.
-/

namespace ShiftLight

/-- Shift capability codes of the source: Early, Day, LateDay, Night. -/
inductive Shift where
  | E | D | DL | N
deriving DecidableEq, Repr

/-- Cell values of the assignment grid: a shift code, mandatory rest `AK`,
requested day off `OFF`, or the empty string (unassigned). -/
inductive Assignment where
  | E | D | DL | N | AK | OFF | empty
deriving DecidableEq, Repr

/-- The three demand-bearing shift kinds, iterated as `shiftOrder = ['E','D','N']`. -/
inductive DKind where
  | E | D | N
deriving DecidableEq, Repr

/-- A worker record (`Staff` in the source).  `dayOffs` holds day-of-month
numbers of the target month; `days` holds available weekday numbers
(Sunday = 0). -/
structure Staff where
  name : String
  dayOffs : List Nat
  days : List Nat
  shifts : List Shift
  maxPerWeek : Nat
  exactPerMonth : Int
deriving DecidableEq, Repr

/-- A scheduling run's calendar input: the number of days of the target month
and the weekday (Sunday = 0) of its first day, plus the staff list. -/
structure Config where
  daysInMonth : Nat
  firstWeekday : Nat
  staffList : List Staff
deriving Repr

/-- Gregorian leap-year rule, as implemented by JS `Date`. -/
def isLeap (y : Nat) : Bool :=
  y % 4 = 0 && (y % 100 ≠ 0 || y % 400 = 0)

/-- `getDaysInMonth year month` of the source (`month` 0-based):
number of days of the Gregorian month. -/
def gregDaysInMonth (y m0 : Nat) : Nat :=
  match m0 with
  | 0 => 31
  | 1 => if isLeap y then 29 else 28
  | 2 => 31
  | 3 => 30
  | 4 => 31
  | 5 => 30
  | 6 => 31
  | 7 => 31
  | 8 => 30
  | 9 => 31
  | 10 => 30
  | _ => 31

/-- Zeller's congruence: weekday of (year, month 1..12, day), 0 = Saturday. -/
def zeller (y m q : Nat) : Nat :=
  let y' := if m ≤ 2 then y - 1 else y
  let m' := if m ≤ 2 then m + 12 else m
  let K := y' % 100
  let J := y' / 100
  (q + 13 * (m' + 1) / 5 + K + K / 4 + J / 4 + 5 * J) % 7

/-- Weekday (Sunday = 0, as JS `Date.getDay`) of day 1 of a Gregorian month
(`m0` 0-based). -/
def firstWeekdaySun0 (y m0 : Nat) : Nat :=
  (zeller y (m0 + 1) 1 + 6) % 7

/-- Build the calendar data of a run from a Gregorian (year, 0-based month),
as the source does with `getDaysInMonth` and `new Date(y, m, 1).getDay()`. -/
def mkConfig (y m0 : Nat) (staff : List Staff) : Config :=
  { daysInMonth := gregDaysInMonth y m0
    firstWeekday := firstWeekdaySun0 y m0
    staffList := staff }

/-- Weekday number (Sunday = 0) of day `d` of the month: JS
`new Date(year, month, d).getDay()`. -/
def weekdayOf (cfg : Config) (d : Nat) : Nat :=
  (cfg.firstWeekday + (d - 1)) % 7

/-- `getWeekIndex` of the source: Monday-anchored week-of-month bucket.
`offset = (first.getDay() + 6) % 7`, result `⌊(date + offset - 1) / 7⌋`. -/
def getWeekIndex (cfg : Config) (d : Nat) : Nat :=
  (d + (cfg.firstWeekday + 6) % 7 - 1) / 7

/-- The static `demandPerWeekday` table: every weekday demands E 1, D 3, N 2,
except Wednesday (weekday 3), which demands D 1. -/
def demandPerWeekday (w : Nat) (k : DKind) : Nat :=
  match k with
  | .E => 1
  | .D => if w = 3 then 1 else 3
  | .N => 2

/-- The days 1..daysInMonth of the target month. -/
def dayList (cfg : Config) : List Nat := List.range' 1 cfg.daysInMonth

/-- Total monthly demand of a shift kind (`demand` in `checkSupplyDemand`):
the demand-table entry of each day's weekday, summed over the month. -/
def monthDemand (cfg : Config) (k : DKind) : Nat :=
  (dayList cfg).foldl (fun acc d => acc + demandPerWeekday (weekdayOf cfg d) k) 0

/-- `night` in `checkSupplyDemand`: slots allocated to Night supply for one
worker — `Math.floor(exactPerMonth / 2)` when Night-capable, else 0. -/
def nightAlloc (s : Staff) : Int :=
  if s.shifts.contains Shift.N then Int.fdiv s.exactPerMonth 2 else 0

/-- Theoretical monthly supply of a shift kind (`supply` in
`checkSupplyDemand`), summed over the staff list. -/
def supplyOf (cfg : Config) (k : DKind) : Int :=
  cfg.staffList.foldl
    (fun acc s =>
      match k with
      | .N => acc + nightAlloc s
      | .E => acc + (if s.shifts.contains Shift.E then s.exactPerMonth - 2 * nightAlloc s else 0)
      | .D => acc + (if s.shifts.contains Shift.D then s.exactPerMonth - 2 * nightAlloc s else 0))
    0

/-- `shiftOrder = ['E','D','N']`. -/
def kindsOrder : List DKind := [DKind.E, DKind.D, DKind.N]

/-- The warnings emitted by `checkSupplyDemand`: one per shift kind whose
demand strictly exceeds supply, carrying the shortfall `demand - supply`. -/
def supplyWarnings (cfg : Config) : List (DKind × Int) :=
  kindsOrder.filterMap fun k =>
    if (monthDemand cfg k : Int) > supplyOf cfg k then
      some (k, (monthDemand cfg k : Int) - supplyOf cfg k)
    else none

/-- The scheduler's mutable state: the grid and the three counter tables of
`generateShiftTable`, plus the tie-break choice stream (see module header). -/
structure SchedState where
  grid : String → Nat → Assignment
  weekly : String → Nat → Nat
  monthly : String → Nat
  remDemand : Nat → DKind → Int
  choice : List Nat

/-- Fresh state of a run: empty grid, zero counters, `remainingDemand`
initialized from the demand table for days 1..daysInMonth. -/
def initState (cfg : Config) (choice : List Nat) : SchedState where
  grid := fun _ _ => Assignment.empty
  weekly := fun _ _ => 0
  monthly := fun _ => 0
  remDemand := fun d k =>
    if 1 ≤ d ∧ d ≤ cfg.daysInMonth then (demandPerWeekday (weekdayOf cfg d) k : Int) else 0
  choice := choice

/-- The pre-assignment step: for every day of the month, every worker whose
requested-days-off set contains it gets the cell set to `OFF`. -/
def preAssign (cfg : Config) (st : SchedState) : SchedState :=
  (dayList cfg).foldl
    (fun st d =>
      cfg.staffList.foldl
        (fun st s =>
          if s.dayOffs.contains d then
            { st with
              grid := fun n' d' => if n' = s.name ∧ d' = d then Assignment.OFF else st.grid n' d' }
          else st)
        st)
    st

/-- The shift-specific eligibility tests of `assignShift`'s candidate filter. -/
def shiftEligible (cfg : Config) (st : SchedState) (d : Nat) (k : DKind) (s : Staff) : Bool :=
  match k with
  | .E =>
      s.shifts.contains Shift.E &&
      !(st.grid s.name (d - 1) == Assignment.D || st.grid s.name (d - 1) == Assignment.DL)
  | .D => s.shifts.contains Shift.D || s.shifts.contains Shift.DL
  | .N =>
      s.shifts.contains Shift.N &&
      (d != cfg.daysInMonth) &&
      (st.grid s.name (d + 1) == Assignment.empty) &&
      decide (st.weekly s.name (getWeekIndex cfg (d + 1)) < s.maxPerWeek) &&
      decide (2 ≤ s.exactPerMonth - (st.monthly s.name : Int))

/-- The full candidate filter of `assignShift`: empty cell, weekday
availability, positive remaining monthly capacity, the shift-specific tests,
and the universal weekly cap. -/
def eligible (cfg : Config) (st : SchedState) (d : Nat) (k : DKind) (s : Staff) : Bool :=
  (st.grid s.name d == Assignment.empty) &&
  s.days.contains (weekdayOf cfg d) &&
  decide (0 < s.exactPerMonth - (st.monthly s.name : Int)) &&
  shiftEligible cfg st d k s &&
  decide (st.weekly s.name (getWeekIndex cfg d) < s.maxPerWeek)

/-- Write one cell and do the bookkeeping the source pairs with every write:
`+1` to the written worker's counter of the written day's week, `+1` to the
monthly counter.  Used once for an ordinary assignment, twice for Night. -/
def place (cfg : Config) (st : SchedState) (n : String) (d : Nat) (v : Assignment) : SchedState :=
  { st with
    grid := fun n' d' => if n' = n ∧ d' = d then v else st.grid n' d'
    weekly := fun n' w' =>
      if n' = n ∧ w' = getWeekIndex cfg d then st.weekly n' w' + 1 else st.weekly n' w'
    monthly := fun n' => if n' = n then st.monthly n' + 1 else st.monthly n' }

/-- The code actually written for the chosen worker: for Day demand, `D` if
the worker has native Day capability, else `DL`. -/
def chosenCode (k : DKind) (s : Staff) : Assignment :=
  match k with
  | .E => Assignment.E
  | .N => Assignment.N
  | .D => if s.shifts.contains Shift.D then Assignment.D else Assignment.DL

/-- `remainingDemand[d][shift]--` guarded by `> 0`. -/
def decDemand (rd : Nat → DKind → Int) (d : Nat) (k : DKind) : Nat → DKind → Int :=
  fun d' k' => if d' = d ∧ k' = k ∧ 0 < rd d k then rd d' k' - 1 else rd d' k'

/-- The state change of a successful `assignShift` call for a chosen worker:
write the cell (plus the `AK` rest cell and double bookkeeping for Night),
decrement the day's remaining demand if positive, consume one choice. -/
def applyAssign (cfg : Config) (st : SchedState) (d : Nat) (k : DKind) (s : Staff) : SchedState :=
  let st1 := place cfg st s.name d (chosenCode k s)
  let st2 := if k = DKind.N then place cfg st1 s.name (d + 1) Assignment.AK else st1
  { st2 with remDemand := decDemand st.remDemand d k, choice := st.choice.tail }

/-- `assignShift(d, shift)`: filter the staff list, fail on an empty candidate
set, otherwise assign to the candidate selected by the choice stream (see the
module header for why selection is a parameter). -/
def assignShift (cfg : Config) (st : SchedState) (d : Nat) (k : DKind) : Bool × SchedState :=
  match cfg.staffList.filter (eligible cfg st d k) with
  | [] => (false, st)
  | x :: xs =>
      (true,
        applyAssign cfg st d k
          ((x :: xs).get
            ⟨st.choice.headD 0 % (x :: xs).length, Nat.mod_lt _ (Nat.succ_pos xs.length)⟩))

/-- Pass 1 inner `while (remainingDemand[d][shift] > 0)` loop, with fuel.
Each successful iteration decrements `remainingDemand[d][shift]` by exactly 1
(the guard guarantees it is positive), so fuel equal to the remaining demand
at entry makes this exactly the source loop. -/
def pass1Aux (cfg : Config) (d : Nat) (k : DKind) : Nat → SchedState → SchedState
  | 0, st => st
  | fuel + 1, st =>
      if 0 < st.remDemand d k then
        if (assignShift cfg st d k).1 then pass1Aux cfg d k fuel (assignShift cfg st d k).2
        else st
      else st

/-- Pass 1 body for one (day, kind). -/
def pass1Inner (cfg : Config) (d : Nat) (k : DKind) (st : SchedState) : SchedState :=
  pass1Aux cfg d k (st.remDemand d k).toNat st

/-- Pass 1: days ascending, kinds in `shiftOrder`, fill while demand remains. -/
def pass1 (cfg : Config) (st : SchedState) : SchedState :=
  (dayList cfg).foldl
    (fun st d => kindsOrder.foldl (fun st k => pass1Inner cfg d k st) st) st

/-- `staffHasRemaining()`: some worker still has unmet monthly quota. -/
def staffHasRemaining (cfg : Config) (st : SchedState) : Bool :=
  cfg.staffList.any fun s => decide (0 < s.exactPerMonth - (st.monthly s.name : Int))

/-- The total unmet quota: sum over workers of `max 0 (exactPerMonth − monthlyCount)`. -/
def totalRemaining (cfg : Config) (st : SchedState) : Nat :=
  (cfg.staffList.map fun s => (s.exactPerMonth - (st.monthly s.name : Int)).toNat).sum

/-- Pass 2 inner `while (staffHasRemaining())` loop, with fuel.  Each
successful iteration strictly decreases `totalRemaining` (theorem
`C6_pass2_quota_strict_decrease` below), so fuel equal to `totalRemaining` at
entry makes this exactly the source loop. -/
def pass2Aux (cfg : Config) (d : Nat) (k : DKind) : Nat → SchedState → SchedState
  | 0, st => st
  | fuel + 1, st =>
      if staffHasRemaining cfg st then
        if (assignShift cfg st d k).1 then pass2Aux cfg d k fuel (assignShift cfg st d k).2
        else st
      else st

/-- Pass 2 body for one (day, kind). -/
def pass2Inner (cfg : Config) (d : Nat) (k : DKind) (st : SchedState) : SchedState :=
  pass2Aux cfg d k (totalRemaining cfg st) st

/-- Pass 2: runs only if some quota is unmet; days ascending, kinds in order,
keep assigning while anyone has quota left, break on a failed assignment. -/
def pass2 (cfg : Config) (st : SchedState) : SchedState :=
  if staffHasRemaining cfg st then
    (dayList cfg).foldl
      (fun st d => kindsOrder.foldl (fun st k => pass2Inner cfg d k st) st) st
  else st

/-- `generateShiftTable`: fresh state, pre-assigned days off, Pass 1, Pass 2.
(The day labels and the console shortfall reports of the source are
presentational and not modelled.) -/
def generateShiftTable (cfg : Config) (choice : List Nat) : SchedState :=
  pass2 cfg (pass1 cfg (preAssign cfg (initState cfg choice)))

/-- Work cells in the sense of the weekly cap: a shift code or `AK`. -/
def isWork : Assignment → Bool
  | .E => true
  | .D => true
  | .DL => true
  | .N => true
  | .AK => true
  | .OFF => false
  | .empty => false

/-- Number of work cells (shift code or `AK`) of worker `n` in week bucket `w`. -/
def weeklyCellCount (cfg : Config) (st : SchedState) (n : String) (w : Nat) : Nat :=
  ((dayList cfg).filter fun d => getWeekIndex cfg d == w && isWork (st.grid n d)).length

/-- Night-rest pairing: every Night cell on day `d` has `d` before the last
day and the mandatory-rest code on day `d + 1` for the same worker. -/
def nightInv (cfg : Config) (st : SchedState) : Prop :=
  ∀ n d, st.grid n d = Assignment.N →
    d < cfg.daysInMonth ∧ st.grid n (d + 1) = Assignment.AK

/-- Monthly quota bound: no worker with a nonnegative quota has consumed more
monthly slots than `exactPerMonth`. -/
def monthlyInv (cfg : Config) (st : SchedState) : Prop :=
  ∀ s ∈ cfg.staffList, 0 ≤ s.exactPerMonth → (st.monthly s.name : Int) ≤ s.exactPerMonth

/-- The weekly counters agree with the number of work cells of each week. -/
def weeklyCountInv (cfg : Config) (st : SchedState) : Prop :=
  ∀ n w, st.weekly n w = weeklyCellCount cfg st n w

/-- Weekly counters are bounded by `maxPerWeek + 1` (the `+ 1` slack is
reachable: a Night whose rest day falls in the same week, see the C3
counterexample). -/
def weeklyBoundInv (cfg : Config) (st : SchedState) : Prop :=
  ∀ s ∈ cfg.staffList, ∀ w, st.weekly s.name w ≤ s.maxPerWeek + 1

/-- Worker used by the C1 counterexample: Early/Day capable, available
Monday-Thursday. -/
def staffA : Staff := ⟨"A", [], [1, 2, 3, 4], [Shift.E, Shift.D], 5, 16⟩

/-- Helper worker absorbing Early demand in the C1 counterexample. -/
def staffH : Staff := ⟨"H", [], [0, 1, 2, 3, 4, 5, 6], [Shift.E], 5, 16⟩

/-- Helper worker absorbing Day demand in the C1 counterexample. -/
def staffH2 : Staff := ⟨"H2", [], [0, 1, 2, 3, 4, 5, 6], [Shift.D], 5, 20⟩

/-- February 2027 (28 days, starting on a Monday) with the three C1 workers. -/
def cfgC1 : Config := mkConfig 2027 1 [staffA, staffH, staffH2]

/-- Tie-break choices for the C1 counterexample run.  Every entry other than
the day-1 Early pick selects the candidate with the strictly largest remaining
monthly capacity, i.e. the one the source's deterministic sort keys put first;
the day-1 Early pick resolves an exact tie (both remaining capacities 16, both
weekly capacities 5), which the source resolves by `Math.random()`. -/
def chC1 : List Nat := [1, 1, 0, 0, 1, 0, 0, 1, 0]

/-- Night-capable worker with `maxPerWeek = 1` used by the C3 counterexample. -/
def staffW : Staff := ⟨"W", [], [0, 1, 2, 3, 4, 5, 6], [Shift.N], 1, 2⟩

/-- February 2027 with the single Night worker. -/
def cfgW : Config := mkConfig 2027 1 [staffW]

/-- Worker with a requested day off on day 5, for the C4 witness. -/
def staffO : Staff := ⟨"O", [5], [0, 1, 2, 3, 4, 5, 6], [Shift.E, Shift.D], 5, 10⟩

/-- February 2027 with the single day-off worker. -/
def cfgO : Config := mkConfig 2027 1 [staffO]

end ShiftLight

namespace ShiftLight

/-- A predicate preserved by every step of a fold is preserved by the fold. -/
lemma foldl_pres {α σ : Type} (P : σ → Prop) (f : σ → α → σ) :
    ∀ (l : List α) (s : σ), (∀ s' a, a ∈ l → P s' → P (f s' a)) → P s → P (l.foldl f s)
  | [], _, _, hs => hs
  | a :: l, s, h, hs =>
      foldl_pres P f l (f s a)
        (fun s' b hb => h s' b (List.mem_cons_of_mem a hb))
        (h s a (List.mem_cons_self a l) hs)

/-- A predicate established at some element of a fold and preserved by every
step holds after the fold. -/
lemma foldl_estab {α σ : Type} (P : σ → Prop) (f : σ → α → σ) (l : List α) (a : α)
    (ha : a ∈ l) (hset : ∀ s, P (f s a)) (hpres : ∀ s b, b ∈ l → P s → P (f s b)) (s : σ) :
    P (l.foldl f s) := by
  obtain ⟨l1, l2, rfl⟩ := List.append_of_mem ha
  rw [List.foldl_append, List.foldl_cons]
  exact foldl_pres P f l2 _
    (fun s' b hb => hpres s' b (by simp [hb]))
    (hset _)

/-- Changing a predicate from false to true at one point of a duplicate-free
list raises its count by exactly one. -/
lemma countP_update (l : List Nat) (hl : l.Nodup) (d : Nat) (hd : d ∈ l) (p q : Nat → Bool)
    (heq : ∀ x ∈ l, x ≠ d → q x = p x) (hpd : p d = false) (hqd : q d = true) :
    l.countP q = l.countP p + 1 := by
  induction l with
  | nil => cases hd
  | cons a t ih =>
      rw [List.countP_cons, List.countP_cons]
      rcases List.mem_cons.mp hd with h | hdt
      · subst h
        rw [hqd, hpd]
        have ht : t.countP q = t.countP p := by
          refine List.countP_congr fun x hx => ?_
          have hxd : x ≠ d := fun h2 => (List.nodup_cons.mp hl).1 (h2 ▸ hx)
          rw [heq x (List.mem_cons_of_mem d hx) hxd]
        simp [ht]
      · have ha : a ≠ d := by
          intro h
          exact (List.nodup_cons.mp hl).1 (h ▸ hdt)
        rw [heq a (List.mem_cons_self a t) ha]
        have := ih (List.nodup_cons.mp hl).2 hdt
          (fun x hx hxd => heq x (List.mem_cons_of_mem a hx) hxd)
        omega

/-- Either `assignShift` fails leaving the state unchanged, or it applies
`applyAssign` to some eligible member of the staff list. -/
lemma assignShift_cases (cfg : Config) (st : SchedState) (d : Nat) (k : DKind) :
    assignShift cfg st d k = (false, st) ∨
      ∃ s, s ∈ cfg.staffList ∧ eligible cfg st d k s = true ∧
        assignShift cfg st d k = (true, applyAssign cfg st d k s) := by
  unfold assignShift
  cases hf : cfg.staffList.filter (eligible cfg st d k) with
  | nil => exact Or.inl rfl
  | cons x xs =>
      right
      refine ⟨(x :: xs).get
        ⟨st.choice.headD 0 % (x :: xs).length, Nat.mod_lt _ (Nat.succ_pos xs.length)⟩,
        ?_, ?_, rfl⟩
      · have hmem : (x :: xs).get
            ⟨st.choice.headD 0 % (x :: xs).length, Nat.mod_lt _ (Nat.succ_pos xs.length)⟩
            ∈ cfg.staffList.filter (eligible cfg st d k) := by
          rw [hf]; exact List.get_mem _ _ _
        exact (List.mem_filter.mp hmem).1
      · have hmem : (x :: xs).get
            ⟨st.choice.headD 0 % (x :: xs).length, Nat.mod_lt _ (Nat.succ_pos xs.length)⟩
            ∈ cfg.staffList.filter (eligible cfg st d k) := by
          rw [hf]; exact List.get_mem _ _ _
        exact (List.mem_filter.mp hmem).2

/-- The universal parts of the candidate filter. -/
lemma eligible_base {cfg : Config} {st : SchedState} {d : Nat} {k : DKind} {s : Staff}
    (h : eligible cfg st d k s = true) :
    st.grid s.name d = Assignment.empty ∧
    s.days.contains (weekdayOf cfg d) = true ∧
    0 < s.exactPerMonth - (st.monthly s.name : Int) ∧
    st.weekly s.name (getWeekIndex cfg d) < s.maxPerWeek := by
  unfold eligible at h
  simp only [Bool.and_eq_true, beq_iff_eq, decide_eq_true_eq] at h
  exact ⟨h.1.1.1.1, h.1.1.1.2, h.1.1.2, h.2⟩

/-- The Night-specific parts of the candidate filter. -/
lemma eligible_N {cfg : Config} {st : SchedState} {d : Nat} {s : Staff}
    (h : eligible cfg st d DKind.N s = true) :
    s.shifts.contains Shift.N = true ∧ d ≠ cfg.daysInMonth ∧
    st.grid s.name (d + 1) = Assignment.empty ∧
    st.weekly s.name (getWeekIndex cfg (d + 1)) < s.maxPerWeek ∧
    2 ≤ s.exactPerMonth - (st.monthly s.name : Int) := by
  unfold eligible shiftEligible at h
  simp only [Bool.and_eq_true, beq_iff_eq, decide_eq_true_eq, bne_iff_ne, ne_eq] at h
  exact ⟨h.1.2.1.1.1.1, h.1.2.1.1.1.2, h.1.2.1.1.2, h.1.2.1.2, h.1.2.2⟩

/-- The Early-specific parts of the candidate filter. -/
lemma eligible_E {cfg : Config} {st : SchedState} {d : Nat} {s : Staff}
    (h : eligible cfg st d DKind.E s = true) :
    s.shifts.contains Shift.E = true ∧
    st.grid s.name (d - 1) ≠ Assignment.D ∧ st.grid s.name (d - 1) ≠ Assignment.DL := by
  unfold eligible shiftEligible at h
  simp only [Bool.and_eq_true, beq_iff_eq, decide_eq_true_eq, Bool.not_eq_true',
    Bool.or_eq_false_iff, beq_eq_false_iff_ne, ne_eq] at h
  exact ⟨h.1.2.1, h.1.2.2.1, h.1.2.2.2⟩

end ShiftLight

namespace ShiftLight

/-- Grid of `applyAssign`, pointwise. -/
lemma applyAssign_grid (cfg : Config) (st : SchedState) (d : Nat) (k : DKind) (s : Staff)
    (n : String) (d0 : Nat) :
    (applyAssign cfg st d k s).grid n d0 =
      if n = s.name ∧ d0 = d + 1 ∧ k = DKind.N then Assignment.AK
      else if n = s.name ∧ d0 = d then chosenCode k s
      else st.grid n d0 := by
  unfold applyAssign place
  cases k <;> dsimp only <;> split_ifs <;> dsimp only <;>
    first
      | rfl
      | omega
      | tauto
      | (split_ifs <;> first | rfl | omega | tauto | simp_all)
      | simp_all

/-- Weekly counters of `applyAssign`, pointwise. -/
lemma applyAssign_weekly (cfg : Config) (st : SchedState) (d : Nat) (k : DKind) (s : Staff)
    (n : String) (w : Nat) :
    (applyAssign cfg st d k s).weekly n w =
      st.weekly n w
        + (if n = s.name ∧ w = getWeekIndex cfg d then 1 else 0)
        + (if n = s.name ∧ k = DKind.N ∧ w = getWeekIndex cfg (d + 1) then 1 else 0) := by
  unfold applyAssign place
  cases k <;> dsimp only <;> split_ifs <;> dsimp only <;>
    first
      | rfl
      | omega
      | tauto
      | (split_ifs <;> first | rfl | omega | tauto | simp_all)
      | simp_all

/-- Monthly counters of `applyAssign`, pointwise. -/
lemma applyAssign_monthly (cfg : Config) (st : SchedState) (d : Nat) (k : DKind) (s : Staff)
    (n : String) :
    (applyAssign cfg st d k s).monthly n =
      st.monthly n + (if n = s.name then (if k = DKind.N then 2 else 1) else 0) := by
  unfold applyAssign place
  cases k <;> dsimp only <;> split_ifs <;> dsimp only <;>
    first
      | rfl
      | omega
      | tauto
      | (split_ifs <;> first | rfl | omega | tauto | simp_all)
      | simp_all

/-- Remaining demand of `applyAssign`. -/
lemma applyAssign_remDemand (cfg : Config) (st : SchedState) (d : Nat) (k : DKind) (s : Staff) :
    (applyAssign cfg st d k s).remDemand = decDemand st.remDemand d k := rfl

/-- Choice stream of `applyAssign`. -/
lemma applyAssign_choice (cfg : Config) (st : SchedState) (d : Nat) (k : DKind) (s : Staff) :
    (applyAssign cfg st d k s).choice = st.choice.tail := rfl

/-- `applyAssign` writes only to cells that were empty: any non-empty cell is
left unchanged. -/
lemma applyAssign_keep {cfg : Config} {st : SchedState} {d : Nat} {k : DKind} {s : Staff}
    (h : eligible cfg st d k s = true) (n : String) (d0 : Nat)
    (hne : st.grid n d0 ≠ Assignment.empty) :
    (applyAssign cfg st d k s).grid n d0 = st.grid n d0 := by
  rw [applyAssign_grid]
  by_cases h1 : n = s.name ∧ d0 = d + 1 ∧ k = DKind.N
  · exfalso
    obtain ⟨rfl, rfl, rfl⟩ := h1
    exact hne (eligible_N h).2.2.1
  · rw [if_neg h1]
    by_cases h2 : n = s.name ∧ d0 = d
    · exfalso
      obtain ⟨rfl, rfl⟩ := h2
      exact hne (eligible_base h).1
    · rw [if_neg h2]

/-- `assignShift` never overwrites a non-empty cell. -/
lemma assignShift_keep (cfg : Config) (st : SchedState) (d : Nat) (k : DKind)
    (n : String) (d0 : Nat) (hne : st.grid n d0 ≠ Assignment.empty) :
    (assignShift cfg st d k).2.grid n d0 = st.grid n d0 := by
  rcases assignShift_cases cfg st d k with hc | ⟨s, _, he, hc⟩
  · rw [hc]
  · rw [hc]
    exact applyAssign_keep he n d0 hne

end ShiftLight

namespace ShiftLight

/-- A predicate preserved by the `assignShift` step is preserved by the Pass 1
inner loop. -/
lemma pass1Aux_pres (cfg : Config) (d : Nat) (k : DKind) (P : SchedState → Prop)
    (hstep : ∀ st', P st' → P (assignShift cfg st' d k).2) :
    ∀ (fuel : Nat) (st' : SchedState), P st' → P (pass1Aux cfg d k fuel st')
  | 0, _, h => h
  | fuel + 1, st', h => by
      unfold pass1Aux
      split
      · split
        · exact pass1Aux_pres cfg d k P hstep fuel _ (hstep st' h)
        · exact h
      · exact h

/-- A predicate preserved by the `assignShift` step is preserved by the Pass 2
inner loop. -/
lemma pass2Aux_pres (cfg : Config) (d : Nat) (k : DKind) (P : SchedState → Prop)
    (hstep : ∀ st', P st' → P (assignShift cfg st' d k).2) :
    ∀ (fuel : Nat) (st' : SchedState), P st' → P (pass2Aux cfg d k fuel st')
  | 0, _, h => h
  | fuel + 1, st', h => by
      unfold pass2Aux
      split
      · split
        · exact pass2Aux_pres cfg d k P hstep fuel _ (hstep st' h)
        · exact h
      · exact h

/-- A predicate preserved by every `assignShift` step with an in-month day is
preserved by both passes. -/
lemma passes_pres (cfg : Config) (P : SchedState → Prop)
    (hstep : ∀ st' d k, d ∈ dayList cfg → P st' → P (assignShift cfg st' d k).2) :
    ∀ st', P st' → P (pass2 cfg (pass1 cfg st')) := by
  intro st0 h0
  have h1 : P (pass1 cfg st0) := by
    unfold pass1
    refine foldl_pres P _ _ _ ?_ h0
    intro s1 d hd hP
    refine foldl_pres P _ _ _ ?_ hP
    intro s2 k _ hP2
    exact pass1Aux_pres cfg d k P (fun st'' h'' => hstep st'' d k hd h'') _ _ hP2
  unfold pass2
  split
  · refine foldl_pres P _ _ _ ?_ h1
    intro s1 d hd hP
    refine foldl_pres P _ _ _ ?_ hP
    intro s2 k _ hP2
    exact pass2Aux_pres cfg d k P (fun st'' h'' => hstep st'' d k hd h'') _ _ hP2
  · exact h1

/-- `preAssign` leaves every counter table and the choice stream unchanged. -/
lemma preAssign_counters (cfg : Config) (st : SchedState) :
    (preAssign cfg st).weekly = st.weekly ∧ (preAssign cfg st).monthly = st.monthly ∧
    (preAssign cfg st).remDemand = st.remDemand ∧ (preAssign cfg st).choice = st.choice := by
  unfold preAssign
  refine foldl_pres
    (fun s' : SchedState => s'.weekly = st.weekly ∧ s'.monthly = st.monthly ∧
      s'.remDemand = st.remDemand ∧ s'.choice = st.choice) _ _ _ ?_ ⟨rfl, rfl, rfl, rfl⟩
  intro s1 d _ hP
  dsimp only
  refine foldl_pres
    (fun s' : SchedState => s'.weekly = st.weekly ∧ s'.monthly = st.monthly ∧
      s'.remDemand = st.remDemand ∧ s'.choice = st.choice) _ _ _ ?_ hP
  intro s2 t _ hP2
  split
  · exact hP2
  · exact hP2

/-- Every cell of `preAssign` is either unchanged or `OFF`. -/
lemma preAssign_grid_cases (cfg : Config) (st : SchedState) (n : String) (d0 : Nat) :
    (preAssign cfg st).grid n d0 = st.grid n d0 ∨
    (preAssign cfg st).grid n d0 = Assignment.OFF := by
  unfold preAssign
  refine foldl_pres
    (fun s' : SchedState => s'.grid n d0 = st.grid n d0 ∨ s'.grid n d0 = Assignment.OFF)
    _ _ _ ?_ (Or.inl rfl)
  intro s1 d _ hP
  dsimp only
  refine foldl_pres
    (fun s' : SchedState => s'.grid n d0 = st.grid n d0 ∨ s'.grid n d0 = Assignment.OFF)
    _ _ _ ?_ hP
  intro s2 t _ hP2
  split
  · dsimp only
    split
    · exact Or.inr rfl
    · exact hP2
  · exact hP2

/-- `preAssign` marks every requested in-month day off as `OFF`. -/
lemma preAssign_sets_off (cfg : Config) (st : SchedState) (s : Staff)
    (hs : s ∈ cfg.staffList) (d : Nat) (hoff : d ∈ s.dayOffs)
    (h1 : 1 ≤ d) (h2 : d ≤ cfg.daysInMonth) :
    (preAssign cfg st).grid s.name d = Assignment.OFF := by
  unfold preAssign
  refine foldl_estab (fun s' : SchedState => s'.grid s.name d = Assignment.OFF) _ (dayList cfg) d
    ?_ ?_ ?_ st
  · exact List.mem_range'_1.mpr ⟨h1, by omega⟩
  · intro st0
    dsimp only
    refine foldl_estab (fun s' : SchedState => s'.grid s.name d = Assignment.OFF)
      _ cfg.staffList s hs ?_ ?_ st0
    · intro st1
      have hc : s.dayOffs.contains d = true := List.elem_eq_true_of_mem hoff
      rw [if_pos hc]
      dsimp only
      rw [if_pos ⟨rfl, rfl⟩]
    · intro st1 t _ hP
      split
      · dsimp only
        split
        · rfl
        · exact hP
      · exact hP
  · intro st0 d' _ hP
    dsimp only
    refine foldl_pres (fun s' : SchedState => s'.grid s.name d = Assignment.OFF) _ _ _ ?_ hP
    intro st1 t _ hP2
    split
    · dsimp only
      split
      · rfl
      · exact hP2
    · exact hP2

end ShiftLight

namespace ShiftLight

/-- The code written for a chosen worker is Night exactly for Night demand. -/
lemma chosenCode_eq_N_iff (k : DKind) (s : Staff) :
    chosenCode k s = Assignment.N ↔ k = DKind.N := by
  cases k
  · simp [chosenCode]
  · by_cases hD : Shift.D ∈ s.shifts <;> simp [chosenCode, hD]
  · simp [chosenCode]

/-- The code written for a chosen worker is a work cell. -/
lemma isWork_chosenCode (k : DKind) (s : Staff) : isWork (chosenCode k s) = true := by
  cases k
  · rfl
  · by_cases hD : Shift.D ∈ s.shifts <;> simp [chosenCode, hD, isWork]
  · rfl

/-- One `assignShift` step preserves the night-rest pairing invariant, for any
in-month day. -/
lemma assignShift_nightInv (cfg : Config) (st : SchedState) (d : Nat) (k : DKind)
    (hd : d ≤ cfg.daysInMonth) (h : nightInv cfg st) :
    nightInv cfg (assignShift cfg st d k).2 := by
  rcases assignShift_cases cfg st d k with hc | ⟨s, _, he, hc⟩
  · rw [hc]; exact h
  · rw [hc]
    intro n d0 hN
    rw [applyAssign_grid] at hN
    by_cases h1 : n = s.name ∧ d0 = d + 1 ∧ k = DKind.N
    · rw [if_pos h1] at hN
      cases hN
    · rw [if_neg h1] at hN
      by_cases h2 : n = s.name ∧ d0 = d
      · rw [if_pos h2] at hN
        have hk : k = DKind.N := (chosenCode_eq_N_iff k s).mp hN
        subst hk
        obtain ⟨rfl, rfl⟩ := h2
        have hne := (eligible_N he).2.1
        refine ⟨by omega, ?_⟩
        rw [applyAssign_grid]
        rw [if_pos ⟨rfl, rfl, rfl⟩]
      · rw [if_neg h2] at hN
        obtain ⟨hlt, hAK⟩ := h n d0 hN
        refine ⟨hlt, ?_⟩
        rw [applyAssign_grid]
        by_cases b1 : n = s.name ∧ d0 + 1 = d + 1 ∧ k = DKind.N
        · exact absurd ⟨b1.1, by omega⟩ h2
        · rw [if_neg b1]
          by_cases b2 : n = s.name ∧ d0 + 1 = d
          · exfalso
            have hemp := (eligible_base he).1
            rw [← b2.1, ← b2.2, hAK] at hemp
            cases hemp
          · rw [if_neg b2]
            exact hAK

/-- Remaining demand after one `assignShift` step: unchanged, or decremented
by exactly one at the given (day, kind) when it was positive. -/
lemma assignShift_remDemand_cases (cfg : Config) (st : SchedState) (d : Nat) (k : DKind)
    (d' : Nat) (k' : DKind) :
    (assignShift cfg st d k).2.remDemand d' k' = st.remDemand d' k' ∨
      ((assignShift cfg st d k).2.remDemand d' k' = st.remDemand d' k' - 1 ∧
        d' = d ∧ k' = k ∧ 0 < st.remDemand d k) := by
  rcases assignShift_cases cfg st d k with hc | ⟨s, _, _, hc⟩
  · rw [hc]
    exact Or.inl rfl
  · rw [hc, applyAssign_remDemand]
    unfold decDemand
    by_cases hcond : d' = d ∧ k' = k ∧ 0 < st.remDemand d k
    · rw [if_pos hcond]
      exact Or.inr ⟨rfl, hcond⟩
    · rw [if_neg hcond]
      exact Or.inl rfl

/-- On success, `assignShift` applies the guarded decrement at (d, k). -/
lemma assignShift_remDemand_success (cfg : Config) (st : SchedState) (d : Nat) (k : DKind)
    (h : (assignShift cfg st d k).1 = true) :
    (0 < st.remDemand d k →
        (assignShift cfg st d k).2.remDemand d k = st.remDemand d k - 1) ∧
    (st.remDemand d k ≤ 0 →
        (assignShift cfg st d k).2.remDemand d k = st.remDemand d k) := by
  rcases assignShift_cases cfg st d k with hc | ⟨s, _, _, hc⟩
  · rw [hc] at h
    cases h
  · rw [hc, applyAssign_remDemand]
    unfold decDemand
    constructor
    · intro hpos
      rw [if_pos ⟨rfl, rfl, hpos⟩]
    · intro hle
      rw [if_neg (by omega)]

/-- One `assignShift` step preserves the monthly-quota bound, given distinct
worker names. -/
lemma assignShift_monthlyInv (cfg : Config) (st : SchedState) (d : Nat) (k : DKind)
    (hnd : (cfg.staffList.map Staff.name).Nodup) (h : monthlyInv cfg st) :
    monthlyInv cfg (assignShift cfg st d k).2 := by
  rcases assignShift_cases cfg st d k with hc | ⟨s, hmem, he, hc⟩
  · rw [hc]; exact h
  · rw [hc]
    intro t ht hex
    rw [applyAssign_monthly]
    by_cases hn : t.name = s.name
    · have hts : t = s := List.inj_on_of_nodup_map hnd ht hmem hn
      subst hts
      rw [if_pos hn]
      have h0 := (eligible_base he).2.2.1
      by_cases hk : k = DKind.N
      · have h2 := (eligible_N (hk ▸ he)).2.2.2.2
        rw [if_pos hk]
        push_cast
        omega
      · rw [if_neg hk]
        push_cast
        omega
    · rw [if_neg hn, add_zero]
      exact h t ht hex

/-- One `assignShift` step preserves the weekly-counter bound
`maxPerWeek + 1`, given distinct worker names. -/
lemma assignShift_weeklyBound (cfg : Config) (st : SchedState) (d : Nat) (k : DKind)
    (hnd : (cfg.staffList.map Staff.name).Nodup) (h : weeklyBoundInv cfg st) :
    weeklyBoundInv cfg (assignShift cfg st d k).2 := by
  rcases assignShift_cases cfg st d k with hc | ⟨s, hmem, he, hc⟩
  · rw [hc]; exact h
  · rw [hc]
    intro t ht w
    rw [applyAssign_weekly]
    by_cases hn : t.name = s.name
    · have hts : t = s := List.inj_on_of_nodup_map hnd ht hmem hn
      subst hts
      have hb := (eligible_base he).2.2.2
      have hall := h t ht w
      by_cases hk : k = DKind.N
      · subst hk
        have hb2 := (eligible_N he).2.2.2.1
        by_cases hw1 : w = getWeekIndex cfg d <;>
          by_cases hw2 : w = getWeekIndex cfg (d + 1)
        · rw [if_pos ⟨hn, hw1⟩, if_pos ⟨hn, rfl, hw2⟩]
          subst hw1
          omega
        · rw [if_pos ⟨hn, hw1⟩, if_neg (by intro hx; exact hw2 hx.2.2)]
          subst hw1
          omega
        · rw [if_neg (by intro hx; exact hw1 hx.2), if_pos ⟨hn, rfl, hw2⟩]
          subst hw2
          omega
        · rw [if_neg (by intro hx; exact hw1 hx.2),
            if_neg (by intro hx; exact hw2 hx.2.2), add_zero, add_zero]
          exact hall
      · have hno : ¬(t.name = t.name ∧ k = DKind.N ∧ w = getWeekIndex cfg (d + 1)) := by
          intro hx
          exact hk hx.2.1
        rw [if_neg hno, add_zero]
        by_cases hw1 : w = getWeekIndex cfg d
        · rw [if_pos ⟨hn, hw1⟩]
          subst hw1
          omega
        · rw [if_neg (by intro hx; exact hw1 hx.2), add_zero]
          exact hall
    · have hno1 : ¬(t.name = s.name ∧ w = getWeekIndex cfg d) := by
        intro hx; exact hn hx.1
      have hno2 : ¬(t.name = s.name ∧ k = DKind.N ∧ w = getWeekIndex cfg (d + 1)) := by
        intro hx; exact hn hx.1
      rw [if_neg hno1, if_neg hno2, add_zero, add_zero]
      exact h t ht w

end ShiftLight

namespace ShiftLight

/-- Cell counts only depend on the grid. -/
lemma weeklyCellCount_congr (cfg : Config) (st1 st2 : SchedState)
    (h : ∀ n d, st1.grid n d = st2.grid n d) (n : String) (w : Nat) :
    weeklyCellCount cfg st1 n w = weeklyCellCount cfg st2 n w := by
  unfold weeklyCellCount
  rw [← List.countP_eq_length_filter, ← List.countP_eq_length_filter]
  exact List.countP_congr fun d _ => by rw [h n d]

/-- Writing a work cell into an empty in-month cell raises exactly the cell
count of the written worker's week of that day by one. -/
lemma weeklyCellCount_place (cfg : Config) (st : SchedState) (n : String) (d : Nat)
    (v : Assignment) (hd : d ∈ dayList cfg) (hemp : st.grid n d = Assignment.empty)
    (hv : isWork v = true) (n' : String) (w : Nat) :
    weeklyCellCount cfg (place cfg st n d v) n' w =
      weeklyCellCount cfg st n' w + (if n' = n ∧ w = getWeekIndex cfg d then 1 else 0) := by
  unfold weeklyCellCount
  rw [← List.countP_eq_length_filter, ← List.countP_eq_length_filter]
  by_cases hn : n' = n
  · subst hn
    by_cases hw : w = getWeekIndex cfg d
    · subst hw
      rw [if_pos ⟨rfl, rfl⟩]
      refine countP_update (dayList cfg) (List.nodup_range' 1 cfg.daysInMonth) d hd _ _
        ?_ ?_ ?_
      · intro x _ hxd
        dsimp only [place]
        rw [if_neg (by intro hc; exact hxd hc.2)]
      · rw [hemp]
        simp [isWork]
      · dsimp only [place]
        rw [if_pos ⟨rfl, rfl⟩, hv]
        simp
    · rw [if_neg (fun hc => hw hc.2), add_zero]
      refine List.countP_congr fun x _ => ?_
      dsimp only [place]
      by_cases hxd : x = d
      · subst hxd
        rw [if_pos ⟨rfl, rfl⟩]
        have hbeq : (getWeekIndex cfg x == w) = false := by
          rw [beq_eq_false_iff_ne]
          intro hc
          exact hw hc.symm
        rw [hbeq]
        simp
      · rw [if_neg (by intro hc; exact hxd hc.2)]
  · rw [if_neg (fun hc => hn hc.1), add_zero]
    refine List.countP_congr fun x _ => ?_
    dsimp only [place]
    rw [if_neg (by intro hc; exact hn hc.1)]

/-- Weekly counters of `place`, pointwise. -/
lemma place_weekly_pt (cfg : Config) (st : SchedState) (n : String) (d : Nat)
    (v : Assignment) (n' : String) (w : Nat) :
    (place cfg st n d v).weekly n' w =
      st.weekly n' w + (if n' = n ∧ w = getWeekIndex cfg d then 1 else 0) := by
  dsimp only [place]
  split_ifs <;> omega

/-- `place` of a work cell into an empty in-month cell preserves the
counter/cell-count agreement. -/
lemma place_weeklyCountInv (cfg : Config) (st : SchedState) (n : String) (d : Nat)
    (v : Assignment) (hd : d ∈ dayList cfg) (hemp : st.grid n d = Assignment.empty)
    (hv : isWork v = true) (h : weeklyCountInv cfg st) :
    weeklyCountInv cfg (place cfg st n d v) := by
  intro n' w
  rw [weeklyCellCount_place cfg st n d v hd hemp hv n' w, place_weekly_pt, h n' w]

/-- One `assignShift` step at an in-month day preserves the counter/cell-count
agreement. -/
lemma assignShift_weeklyCountInv (cfg : Config) (st : SchedState) (d : Nat) (k : DKind)
    (hd : d ∈ dayList cfg) (h : weeklyCountInv cfg st) :
    weeklyCountInv cfg (assignShift cfg st d k).2 := by
  rcases assignShift_cases cfg st d k with hc | ⟨s, _, he, hc⟩
  · rw [hc]; exact h
  · rw [hc]
    have hbase := (eligible_base he).1
    have h1 : weeklyCountInv cfg (place cfg st s.name d (chosenCode k s)) :=
      place_weeklyCountInv cfg st s.name d _ hd hbase (isWork_chosenCode k s) h
    cases k with
    | N =>
        have hN := eligible_N he
        have hdm := List.mem_range'_1.mp hd
        have hd1 : d + 1 ∈ dayList cfg := by
          refine List.mem_range'_1.mpr ⟨by omega, ?_⟩
          have hne := hN.2.1
          omega
        have hemp1 : (place cfg st s.name d (chosenCode DKind.N s)).grid s.name (d + 1) =
            Assignment.empty := by
          dsimp only [place]
          rw [if_neg (by intro hc2; omega)]
          exact hN.2.2.1
        have h2 := place_weeklyCountInv cfg _ s.name (d + 1) Assignment.AK hd1 hemp1 rfl h1
        intro n' w
        have e2 : ∀ a b, (applyAssign cfg st d DKind.N s).grid a b =
            (place cfg (place cfg st s.name d (chosenCode DKind.N s)) s.name (d + 1)
              Assignment.AK).grid a b := fun a b => rfl
        rw [weeklyCellCount_congr cfg _ _ e2 n' w]
        exact h2 n' w
    | E =>
        intro n' w
        have e2 : ∀ a b, (applyAssign cfg st d DKind.E s).grid a b =
            (place cfg st s.name d (chosenCode DKind.E s)).grid a b := fun a b => rfl
        rw [weeklyCellCount_congr cfg _ _ e2 n' w]
        exact h1 n' w
    | D =>
        intro n' w
        have e2 : ∀ a b, (applyAssign cfg st d DKind.D s).grid a b =
            (place cfg st s.name d (chosenCode DKind.D s)).grid a b := fun a b => rfl
        rw [weeklyCellCount_congr cfg _ _ e2 n' w]
        exact h1 n' w

/-- Every successful `assignShift` call strictly decreases the total unmet
quota. -/
lemma assignShift_total_lt (cfg : Config) (st : SchedState) (d : Nat) (k : DKind)
    (h : (assignShift cfg st d k).1 = true) :
    totalRemaining cfg (assignShift cfg st d k).2 < totalRemaining cfg st := by
  rcases assignShift_cases cfg st d k with hc | ⟨s, hmem, he, hc⟩
  · rw [hc] at h
    cases h
  · rw [hc]
    unfold totalRemaining
    refine List.sum_lt_sum _ _ ?_ ?_
    · intro t _
      rw [applyAssign_monthly]
      split_ifs <;> omega
    · refine ⟨s, hmem, ?_⟩
      rw [applyAssign_monthly]
      have h0 := (eligible_base he).2.2.1
      rw [if_pos rfl]
      split_ifs <;> push_cast <;> omega

/-- `staffHasRemaining` is the positivity of the total unmet quota. -/
lemma staffHasRemaining_iff (cfg : Config) (st : SchedState) :
    staffHasRemaining cfg st = true ↔ 0 < totalRemaining cfg st := by
  unfold staffHasRemaining totalRemaining
  rw [List.any_eq_true]
  constructor
  · rintro ⟨s, hs, hp⟩
    rw [decide_eq_true_eq] at hp
    have hmem := List.mem_map_of_mem
      (fun s : Staff => (s.exactPerMonth - (st.monthly s.name : Int)).toNat) hs
    have hle : (s.exactPerMonth - (st.monthly s.name : Int)).toNat ≤
        (cfg.staffList.map
          (fun s : Staff => (s.exactPerMonth - (st.monthly s.name : Int)).toNat)).sum :=
      List.single_le_sum (fun x _ => Nat.zero_le x) _ hmem
    omega
  · intro hpos
    by_contra hc
    push_neg at hc
    have hall : ∀ x ∈ cfg.staffList.map
        (fun s : Staff => (s.exactPerMonth - (st.monthly s.name : Int)).toNat), x = 0 := by
      intro x hx
      obtain ⟨s, hs, rfl⟩ := List.mem_map.mp hx
      have := hc s hs
      rw [ne_eq, decide_eq_true_eq] at this
      omega
    rw [List.sum_eq_zero_iff.mpr hall] at hpos
    omega

/-- Any fuel at least the total unmet quota gives the same result for the
Pass 2 inner loop: the loop is the source `while`, not a fuel artifact. -/
lemma pass2Aux_fuel_irrel (cfg : Config) (d : Nat) (k : DKind) :
    ∀ (f1 f2 : Nat) (st : SchedState), totalRemaining cfg st ≤ f1 →
      totalRemaining cfg st ≤ f2 → pass2Aux cfg d k f1 st = pass2Aux cfg d k f2 st := by
  intro f1
  induction f1 with
  | zero =>
      intro f2 st h1 _
      have hs : staffHasRemaining cfg st = false := by
        rw [← Bool.not_eq_true, staffHasRemaining_iff]
        omega
      cases f2 with
      | zero => rfl
      | succ f2 => simp [pass2Aux, hs]
  | succ f1 ih =>
      intro f2 st h1 h2
      cases f2 with
      | zero =>
          have hs : staffHasRemaining cfg st = false := by
            rw [← Bool.not_eq_true, staffHasRemaining_iff]
            omega
          simp [pass2Aux, hs]
      | succ f2 =>
          unfold pass2Aux
          by_cases hs : staffHasRemaining cfg st = true
          · rw [if_pos hs, if_pos hs]
            by_cases ha : (assignShift cfg st d k).1 = true
            · rw [if_pos ha, if_pos ha]
              have hlt := assignShift_total_lt cfg st d k ha
              exact ih f2 _ (by omega) (by omega)
            · rw [if_neg ha, if_neg ha]
          · rw [if_neg hs, if_neg hs]

/-- Any fuel at least the remaining demand gives the same result for the
Pass 1 inner loop. -/
lemma pass1Aux_fuel_irrel (cfg : Config) (d : Nat) (k : DKind) :
    ∀ (f1 f2 : Nat) (st : SchedState), (st.remDemand d k).toNat ≤ f1 →
      (st.remDemand d k).toNat ≤ f2 → pass1Aux cfg d k f1 st = pass1Aux cfg d k f2 st := by
  intro f1
  induction f1 with
  | zero =>
      intro f2 st h1 _
      have hg : ¬0 < st.remDemand d k := by omega
      cases f2 with
      | zero => rfl
      | succ f2 => simp [pass1Aux, hg]
  | succ f1 ih =>
      intro f2 st h1 h2
      cases f2 with
      | zero =>
          have hg : ¬0 < st.remDemand d k := by omega
          simp [pass1Aux, hg]
      | succ f2 =>
          unfold pass1Aux
          by_cases hg : 0 < st.remDemand d k
          · rw [if_pos hg, if_pos hg]
            by_cases ha : (assignShift cfg st d k).1 = true
            · rw [if_pos ha, if_pos ha]
              have hdec := (assignShift_remDemand_success cfg st d k ha).1 hg
              refine ih f2 _ ?_ ?_ <;> rw [hdec] <;> omega
            · rw [if_neg ha, if_neg ha]
          · rw [if_neg hg, if_neg hg]

end ShiftLight

namespace ShiftLight

/-- A predicate preserved by every in-month `assignShift` step and holding
after the pre-assignment of days off holds for the final state of a run. -/
lemma run_pres (cfg : Config) (choice : List Nat) (P : SchedState → Prop)
    (hstep : ∀ st' d k, d ∈ dayList cfg → P st' → P (assignShift cfg st' d k).2)
    (hpre : P (preAssign cfg (initState cfg choice))) :
    P (generateShiftTable cfg choice) := by
  unfold generateShiftTable
  exact passes_pres cfg P hstep _ hpre

/-- C2: in the final grid of every run, a Night cell on day `d` implies `d` is
strictly before the last day of the month and the same worker's day-`d+1` cell
is the mandatory-rest code `AK`; moreover (second conjunct) no `assignShift`
call ever overwrites a non-empty cell, so the rest cell placed with a Night is
never replaced during the run. -/
theorem C2_night_rest_pairing (cfg : Config) (choice : List Nat) :
    (∀ n d, (generateShiftTable cfg choice).grid n d = Assignment.N →
        d < cfg.daysInMonth ∧
        (generateShiftTable cfg choice).grid n (d + 1) = Assignment.AK) ∧
    (∀ (st : SchedState) (d : Nat) (k : DKind) (n : String) (d0 : Nat),
        st.grid n d0 ≠ Assignment.empty →
        (assignShift cfg st d k).2.grid n d0 = st.grid n d0) := by
  constructor
  · have h : nightInv cfg (generateShiftTable cfg choice) := by
      refine run_pres cfg choice (nightInv cfg) ?_ ?_
      · intro st' d k hd hP
        refine assignShift_nightInv cfg st' d k ?_ hP
        have := List.mem_range'_1.mp hd
        omega
      · intro n d hN
        exfalso
        rcases preAssign_grid_cases cfg (initState cfg choice) n d with hcase | hcase <;>
          rw [hcase] at hN
        · exact absurd hN (by simp [initState])
        · cases hN
    exact h
  · intro st d k n d0 hne
    exact assignShift_keep cfg st d k n d0 hne

/-- C4: a requested day off inside the target month is `OFF` in the final
grid of every run: it is set before any shift assignment and never
reassigned. -/
theorem C4_dayoff_inviolable (cfg : Config) (choice : List Nat) (s : Staff)
    (hs : s ∈ cfg.staffList) (d : Nat) (hoff : d ∈ s.dayOffs)
    (h1 : 1 ≤ d) (h2 : d ≤ cfg.daysInMonth) :
    (generateShiftTable cfg choice).grid s.name d = Assignment.OFF := by
  refine run_pres cfg choice (fun st => st.grid s.name d = Assignment.OFF) ?_ ?_
  · intro st' d' k _ hP
    have hne : st'.grid s.name d ≠ Assignment.empty := by
      rw [hP]
      simp
    rw [assignShift_keep cfg st' d' k s.name d hne]
    exact hP
  · exact preAssign_sets_off cfg _ s hs d hoff h1 h2

/-- C10 (implicit): with pairwise-distinct worker names, a worker with a
nonnegative monthly quota never has a monthly slot count above
`exactPerMonth`: the bound is preserved by every `assignShift` step and holds
in the final state of every run. -/
theorem C10_monthly_quota_bound (cfg : Config)
    (hnd : (cfg.staffList.map Staff.name).Nodup) :
    (∀ (st : SchedState) (d : Nat) (k : DKind), monthlyInv cfg st →
        monthlyInv cfg (assignShift cfg st d k).2) ∧
    (∀ choice, monthlyInv cfg (generateShiftTable cfg choice)) := by
  refine ⟨fun st d k h => assignShift_monthlyInv cfg st d k hnd h, fun choice => ?_⟩
  refine run_pres cfg choice (monthlyInv cfg)
    (fun st' d k _ h => assignShift_monthlyInv cfg st' d k hnd h) ?_
  intro t ht hex
  rw [(preAssign_counters cfg (initState cfg choice)).2.1]
  simpa [initState] using hex

/-- C3 (amended): with pairwise-distinct worker names, the number of cells of
a worker in one week bucket holding a shift code or `AK` is at most
`maxPerWeek + 1` in the final grid of every run.  (The bound `maxPerWeek`
itself fails: a Night assignment whose rest day lands in the same week
consumes two slots after a single cap check, see `C3_counterexample`.) -/
theorem C3_weekly_cap_plus_one (cfg : Config)
    (hnd : (cfg.staffList.map Staff.name).Nodup) (choice : List Nat) :
    ∀ s ∈ cfg.staffList, ∀ w,
      weeklyCellCount cfg (generateShiftTable cfg choice) s.name w ≤ s.maxPerWeek + 1 := by
  have h : weeklyCountInv cfg (generateShiftTable cfg choice) ∧
      weeklyBoundInv cfg (generateShiftTable cfg choice) := by
    refine run_pres cfg choice
      (fun st => weeklyCountInv cfg st ∧ weeklyBoundInv cfg st)
      (fun st' d k hd hP =>
        ⟨assignShift_weeklyCountInv cfg st' d k hd hP.1,
         assignShift_weeklyBound cfg st' d k hnd hP.2⟩) ?_
    constructor
    · intro n w
      have hc : weeklyCellCount cfg (preAssign cfg (initState cfg choice)) n w = 0 := by
        unfold weeklyCellCount
        rw [List.length_eq_zero, List.filter_eq_nil]
        intro d _
        rcases preAssign_grid_cases cfg (initState cfg choice) n d with hcase | hcase <;>
          rw [hcase] <;> simp [initState, isWork]
      rw [hc, (preAssign_counters cfg (initState cfg choice)).1]
      simp [initState]
    · intro s _ w
      rw [(preAssign_counters cfg (initState cfg choice)).1]
      simp [initState]
  intro s hs w
  rw [← h.1 s.name w]
  exact h.2 s hs w

/-- C9: remaining demand starts at the demand-table value of the day's
weekday, never increases at any (day, kind) under any `assignShift` call, is
decremented by exactly one on success when positive and left unchanged when
nonpositive, and stays between 0 and its initial value for the whole run. -/
theorem C9_demand_monotone (cfg : Config) :
    (∀ (choice : List Nat) (d : Nat) (k : DKind), 1 ≤ d → d ≤ cfg.daysInMonth →
        (initState cfg choice).remDemand d k =
          (demandPerWeekday (weekdayOf cfg d) k : Int)) ∧
    (∀ (st : SchedState) (d : Nat) (k : DKind) (d' : Nat) (k' : DKind),
        (assignShift cfg st d k).2.remDemand d' k' ≤ st.remDemand d' k') ∧
    (∀ (st : SchedState) (d : Nat) (k : DKind), (assignShift cfg st d k).1 = true →
        (0 < st.remDemand d k →
            (assignShift cfg st d k).2.remDemand d k = st.remDemand d k - 1) ∧
        (st.remDemand d k ≤ 0 →
            (assignShift cfg st d k).2.remDemand d k = st.remDemand d k)) ∧
    (∀ (choice : List Nat) (d : Nat) (k : DKind),
        0 ≤ (generateShiftTable cfg choice).remDemand d k ∧
        (generateShiftTable cfg choice).remDemand d k ≤
          (initState cfg choice).remDemand d k) := by
  refine ⟨?_, ?_, ?_, ?_⟩
  · intro choice d k h1 h2
    simp [initState, h1, h2]
  · intro st d k d' k'
    rcases assignShift_remDemand_cases cfg st d k d' k' with h | ⟨h, _⟩ <;> rw [h] <;> omega
  · exact fun st d k h => assignShift_remDemand_success cfg st d k h
  · intro choice d k
    refine (run_pres cfg choice
      (fun st => ∀ d' k', 0 ≤ st.remDemand d' k' ∧
        st.remDemand d' k' ≤ (initState cfg choice).remDemand d' k') ?_ ?_) d k
    · intro st' d0 k0 _ hP d' k'
      have hdk := hP d' k'
      rcases assignShift_remDemand_cases cfg st' d0 k0 d' k' with hh | ⟨hh, hd', hk', hpos⟩ <;>
        rw [hh]
      · exact hdk
      · subst hd'
        subst hk'
        constructor <;> omega
    · intro d' k'
      rw [(preAssign_counters cfg (initState cfg choice)).2.2.1]
      refine ⟨?_, le_refl _⟩
      dsimp only [initState]
      split_ifs
      · exact Int.natCast_nonneg _
      · exact le_refl 0

/-- C6: every successful `assignShift` call strictly decreases the total
remaining quota (the sum over workers of `max 0 (exactPerMonth − monthly)`),
so the Pass 2 inner `while staffHasRemaining()` loop terminates; the loop
breaks as soon as a call fails. -/
theorem C6_pass2_quota_strict_decrease (cfg : Config) (st : SchedState) (d : Nat) (k : DKind)
    (h : (assignShift cfg st d k).1 = true) :
    totalRemaining cfg (assignShift cfg st d k).2 < totalRemaining cfg st :=
  assignShift_total_lt cfg st d k h

/-- C5: when `assignShift (d, Night)` succeeds and the cell of worker name `n`
changed from empty to Night, some staff entry with that name passed every
Night precondition at call time: Night capability, `d` not the last day, an
empty day-`d+1` cell, weekly room in day-`d+1`'s week, remaining monthly
capacity at least 2, plus the universal filters (weekday availability,
positive remaining capacity, weekly cap for day `d`'s week). -/
theorem C5_night_preconditions (cfg : Config) (st : SchedState) (d : Nat) (n : String)
    (h1 : (assignShift cfg st d DKind.N).1 = true)
    (h2 : st.grid n d = Assignment.empty)
    (h3 : (assignShift cfg st d DKind.N).2.grid n d = Assignment.N) :
    ∃ s, s ∈ cfg.staffList ∧ s.name = n ∧
      s.days.contains (weekdayOf cfg d) = true ∧
      0 < s.exactPerMonth - (st.monthly n : Int) ∧
      st.weekly n (getWeekIndex cfg d) < s.maxPerWeek ∧
      s.shifts.contains Shift.N = true ∧
      d ≠ cfg.daysInMonth ∧
      st.grid n (d + 1) = Assignment.empty ∧
      st.weekly n (getWeekIndex cfg (d + 1)) < s.maxPerWeek ∧
      2 ≤ s.exactPerMonth - (st.monthly n : Int) := by
  rcases assignShift_cases cfg st d DKind.N with hc | ⟨s, hmem, he, hc⟩
  · rw [hc] at h1
    cases h1
  · rw [hc] at h3
    have hn : n = s.name := by
      by_contra hne
      rw [applyAssign_grid, if_neg (by intro hx; exact hne hx.1),
        if_neg (by intro hx; exact hne hx.1)] at h3
      rw [h2] at h3
      cases h3
    subst hn
    have hb := eligible_base he
    have hN := eligible_N he
    exact ⟨s, hmem, rfl, hb.2.1, hb.2.2.1, hb.2.2.2, hN.1, hN.2.1, hN.2.2.1,
      hN.2.2.2.1, hN.2.2.2.2⟩

/-- C1 (amended): the no-turnaround rule holds at the moment an Early shift is
assigned — when `assignShift (d, Early)` succeeds and worker name `n`'s day-`d`
cell changed from empty to Early, that worker's day-`d−1` cell was not Day or
LateDay at call time, and the call leaves the day-`d−1` cell unchanged.  (On
the final grid the rule can fail: Pass 2 may later fill day `d−1` with Day,
see `C1_counterexample`.) -/
theorem C1_no_turnaround_at_assignment (cfg : Config) (st : SchedState) (d : Nat) (n : String)
    (hd : 1 ≤ d)
    (h1 : (assignShift cfg st d DKind.E).1 = true)
    (h2 : st.grid n d = Assignment.empty)
    (h3 : (assignShift cfg st d DKind.E).2.grid n d = Assignment.E) :
    st.grid n (d - 1) ≠ Assignment.D ∧ st.grid n (d - 1) ≠ Assignment.DL ∧
    (assignShift cfg st d DKind.E).2.grid n (d - 1) = st.grid n (d - 1) := by
  rcases assignShift_cases cfg st d DKind.E with hc | ⟨s, hmem, he, hc⟩
  · rw [hc] at h1
    cases h1
  · rw [hc] at h3 ⊢
    have hn : n = s.name := by
      by_contra hne
      rw [applyAssign_grid, if_neg (by intro hx; exact hne hx.1),
        if_neg (by intro hx; exact hne hx.1)] at h3
      rw [h2] at h3
      cases h3
    subst hn
    have hE := eligible_E he
    refine ⟨hE.2.1, hE.2.2, ?_⟩
    rw [applyAssign_grid,
      if_neg (by intro hx; exact absurd hx.2.2 (by decide)),
      if_neg (by intro hx; omega)]

/-- C8: `getWeekIndex` is `⌊(dayOfMonth + offset − 1) / 7⌋` with
`offset = (weekday of day 1 + 6) mod 7` (Sunday = 0), and day 1 of every
month is in week bucket 0. -/
theorem C8_week_index_formula (cfg : Config) :
    getWeekIndex cfg 1 = 0 ∧
    (∀ d, 1 ≤ d →
      getWeekIndex cfg d = (d + (cfg.firstWeekday + 6) % 7 - 1) / 7) := by
  constructor
  · unfold getWeekIndex
    have hlt : (cfg.firstWeekday + 6) % 7 < 7 := Nat.mod_lt _ (by norm_num)
    rw [show 1 + (cfg.firstWeekday + 6) % 7 - 1 = (cfg.firstWeekday + 6) % 7 by omega]
    exact Nat.div_eq_of_lt hlt
  · intro d _
    rfl

end ShiftLight

namespace ShiftLight

/-- A left fold accumulating `+ f x` is the sum of the mapped list (ℕ). -/
lemma foldl_add_nat {α : Type} (f : α → Nat) :
    ∀ (l : List α) (a : Nat), l.foldl (fun acc x => acc + f x) a = a + (l.map f).sum
  | [], a => by simp
  | x :: l, a => by
      rw [List.foldl_cons, foldl_add_nat f l (a + f x), List.map_cons, List.sum_cons, add_assoc]

/-- A left fold accumulating `+ f x` is the sum of the mapped list (ℤ). -/
lemma foldl_add_int {α : Type} (f : α → Int) :
    ∀ (l : List α) (a : Int), l.foldl (fun acc x => acc + f x) a = a + (l.map f).sum
  | [], a => by simp
  | x :: l, a => by
      rw [List.foldl_cons, foldl_add_int f l (a + f x), List.map_cons, List.sum_cons, add_assoc]

/-- C7: `checkSupplyDemand` computes monthly demand per kind as the sum of the
demand-table entries of each day's weekday; supply per worker allocates
`⌊exactPerMonth / 2⌋` to Night when Night-capable, and credits the remainder
`exactPerMonth − 2·nightAllocated` in full to Early supply and, independently,
to Day supply for each of those capabilities held; and it emits exactly one
warning per kind whose demand strictly exceeds supply, carrying the difference
`demand − supply`. -/
theorem C7_supply_demand_check (cfg : Config) :
    (∀ k, monthDemand cfg k =
        ((dayList cfg).map fun d => demandPerWeekday (weekdayOf cfg d) k).sum) ∧
    (supplyOf cfg DKind.N =
        (cfg.staffList.map fun s =>
          if s.shifts.contains Shift.N then Int.fdiv s.exactPerMonth 2 else 0).sum) ∧
    (supplyOf cfg DKind.E =
        (cfg.staffList.map fun s =>
          if s.shifts.contains Shift.E then
            s.exactPerMonth -
              2 * (if s.shifts.contains Shift.N then Int.fdiv s.exactPerMonth 2 else 0)
          else 0).sum) ∧
    (supplyOf cfg DKind.D =
        (cfg.staffList.map fun s =>
          if s.shifts.contains Shift.D then
            s.exactPerMonth -
              2 * (if s.shifts.contains Shift.N then Int.fdiv s.exactPerMonth 2 else 0)
          else 0).sum) ∧
    (∀ k m, (k, m) ∈ supplyWarnings cfg ↔
        (supplyOf cfg k < (monthDemand cfg k : Int) ∧
          m = (monthDemand cfg k : Int) - supplyOf cfg k)) ∧
    (∀ k, ((supplyWarnings cfg).filter fun km => km.1 == k).length =
        if supplyOf cfg k < (monthDemand cfg k : Int) then 1 else 0) := by
  refine ⟨?_, ?_, ?_, ?_, ?_, ?_⟩
  · intro k
    unfold monthDemand
    rw [foldl_add_nat (fun d => demandPerWeekday (weekdayOf cfg d) k) (dayList cfg) 0,
      Nat.zero_add]
  · unfold supplyOf nightAlloc
    exact (foldl_add_int
      (fun s : Staff => if s.shifts.contains Shift.N then Int.fdiv s.exactPerMonth 2 else 0)
      cfg.staffList 0).trans (zero_add _)
  · unfold supplyOf nightAlloc
    exact (foldl_add_int
      (fun s : Staff => if s.shifts.contains Shift.E then
        s.exactPerMonth -
          2 * (if s.shifts.contains Shift.N then Int.fdiv s.exactPerMonth 2 else 0)
      else 0) cfg.staffList 0).trans (zero_add _)
  · unfold supplyOf nightAlloc
    exact (foldl_add_int
      (fun s : Staff => if s.shifts.contains Shift.D then
        s.exactPerMonth -
          2 * (if s.shifts.contains Shift.N then Int.fdiv s.exactPerMonth 2 else 0)
      else 0) cfg.staffList 0).trans (zero_add _)
  · intro k m
    unfold supplyWarnings kindsOrder
    simp only [List.filterMap_cons, List.filterMap_nil]
    split_ifs with hE hD hN hD2 hN2 hN3 hN4 <;>
      cases k <;>
        simp_all [Prod.ext_iff] <;> omega
  · intro k
    unfold supplyWarnings kindsOrder
    simp only [List.filterMap_cons, List.filterMap_nil]
    split_ifs with hE hD hN hD2 hN2 hN3 hN4 <;>
      cases k <;>
        simp only [List.filter] <;>
          first | rfl | simp_all +decide [List.filter]

end ShiftLight

namespace ShiftLight

set_option maxRecDepth 100000

/-- C1 counterexample: in the February 2027 run with workers `A`, `H`, `H2`
and the recorded tie-break choices, the final grid gives worker `A` Day on
day 3 and Early on day 4 — a Day→Early turnaround in the final grid (Pass 2
filled day 3 after Pass 1 had assigned the Early on day 4), refuting the claim
that the no-turnaround rule holds on the final grid. -/
theorem C1_counterexample :
    (generateShiftTable cfgC1 chC1).grid "A" 3 = Assignment.D ∧
    (generateShiftTable cfgC1 chC1).grid "A" 4 = Assignment.E := by
  constructor
  · decide
  · decide

/-- C1 witness for the amended (assignment-time) rule, at a concrete call. -/
theorem C1_no_turnaround_witness :
    (initState cfgC1 []).grid "A" 0 ≠ Assignment.D ∧
    (initState cfgC1 []).grid "A" 0 ≠ Assignment.DL ∧
    (assignShift cfgC1 (initState cfgC1 []) 1 DKind.E).2.grid "A" 0 =
      (initState cfgC1 []).grid "A" 0 :=
  C1_no_turnaround_at_assignment cfgC1 (initState cfgC1 []) 1 "A"
    (by decide) (by decide) (by decide) (by decide)

/-- C2 witness: the pairing theorem applied to the single-Night-worker run,
plus the no-overwrite conjunct applied to a concrete non-empty cell. -/
theorem C2_night_rest_witness :
    (1 < cfgW.daysInMonth ∧
      (generateShiftTable cfgW [0]).grid "W" 2 = Assignment.AK) ∧
    (assignShift cfgW (generateShiftTable cfgW [0]) 3 DKind.E).2.grid "W" 1 =
      (generateShiftTable cfgW [0]).grid "W" 1 :=
  ⟨(C2_night_rest_pairing cfgW [0]).1 "W" 1 (by decide),
   (C2_night_rest_pairing cfgW [0]).2 (generateShiftTable cfgW [0]) 3 DKind.E "W" 1
     (by decide)⟩

/-- C3 counterexample: the Night worker with `maxPerWeek = 1` ends the run
with two work cells (`N` then `AK`) in week bucket 0 — the weekly cap as
claimed (count ≤ maxPerWeek) is violated on the final grid. -/
theorem C3_counterexample :
    staffW.maxPerWeek < weeklyCellCount cfgW (generateShiftTable cfgW [0]) "W" 0 ∧
    staffW ∈ cfgW.staffList := by
  constructor
  · decide
  · decide

/-- C3 witness for the amended bound `maxPerWeek + 1`, at a concrete run. -/
theorem C3_weekly_cap_witness :
    weeklyCellCount cfgC1 (generateShiftTable cfgC1 chC1) staffA.name 0 ≤
      staffA.maxPerWeek + 1 :=
  C3_weekly_cap_plus_one cfgC1 (by decide) chC1 staffA (by decide) 0

/-- C4 witness: the day-off worker's requested day 5 is `OFF` in the final
grid. -/
theorem C4_dayoff_witness :
    (generateShiftTable cfgO []).grid staffO.name 5 = Assignment.OFF :=
  C4_dayoff_inviolable cfgO [] staffO (by decide) 5 (by decide) (by decide) (by decide)

/-- C5 witness: the Night preconditions extracted from the concrete
successful Night assignment of the single-worker run. -/
theorem C5_night_witness :
    ∃ s, s ∈ cfgW.staffList ∧ s.name = "W" ∧
      s.days.contains (weekdayOf cfgW 1) = true ∧
      0 < s.exactPerMonth - ((initState cfgW []).monthly "W" : Int) ∧
      (initState cfgW []).weekly "W" (getWeekIndex cfgW 1) < s.maxPerWeek ∧
      s.shifts.contains Shift.N = true ∧
      1 ≠ cfgW.daysInMonth ∧
      (initState cfgW []).grid "W" 2 = Assignment.empty ∧
      (initState cfgW []).weekly "W" (getWeekIndex cfgW 2) < s.maxPerWeek ∧
      2 ≤ s.exactPerMonth - ((initState cfgW []).monthly "W" : Int) :=
  C5_night_preconditions cfgW (initState cfgW []) 1 "W" (by decide) (by decide) (by decide)

/-- C6 witness: the concrete Night assignment strictly decreases the total
remaining quota. -/
theorem C6_quota_witness :
    totalRemaining cfgW (assignShift cfgW (initState cfgW []) 1 DKind.N).2 <
      totalRemaining cfgW (initState cfgW []) :=
  C6_pass2_quota_strict_decrease cfgW (initState cfgW []) 1 DKind.N (by decide)

/-- C7 witness: the demand formula instantiated at February 2027, and the
warning membership for Early (the single Night worker supplies no Early
capacity while the month demands 28 Early slots). -/
theorem C7_supply_witness :
    monthDemand cfgW DKind.E =
      ((dayList cfgW).map fun d => demandPerWeekday (weekdayOf cfgW d) DKind.E).sum ∧
    (DKind.E, (28 : Int)) ∈ supplyWarnings cfgW :=
  ⟨(C7_supply_demand_check cfgW).1 DKind.E,
   ((C7_supply_demand_check cfgW).2.2.2.2.1 DKind.E 28).mpr ⟨by decide, by decide⟩⟩

/-- C8 witness: the formula and the day-1 bucket at February 2027. -/
theorem C8_week_index_witness :
    getWeekIndex cfgW 1 = 0 ∧
    getWeekIndex cfgW 5 = (5 + (cfgW.firstWeekday + 6) % 7 - 1) / 7 :=
  ⟨(C8_week_index_formula cfgW).1, (C8_week_index_formula cfgW).2 5 (by decide)⟩

/-- C9 witness: initial demand of (day 1, Night) at February 2027, and the
decrement produced by the concrete successful Night assignment. -/
theorem C9_demand_witness :
    (initState cfgW [0]).remDemand 1 DKind.N =
      (demandPerWeekday (weekdayOf cfgW 1) DKind.N : Int) ∧
    (assignShift cfgW (initState cfgW []) 1 DKind.N).2.remDemand 1 DKind.N =
      (initState cfgW []).remDemand 1 DKind.N - 1 :=
  ⟨(C9_demand_monotone cfgW).1 [0] 1 DKind.N (by decide) (by decide),
   ((C9_demand_monotone cfgW).2.2.1 (initState cfgW []) 1 DKind.N (by decide)).1 (by decide)⟩

/-- C10 witness: the single Night worker's final monthly count is bounded by
the quota 2. -/
theorem C10_monthly_witness :
    ((generateShiftTable cfgW [0]).monthly staffW.name : Int) ≤ staffW.exactPerMonth :=
  ((C10_monthly_quota_bound cfgW (by decide)).2 [0]) staffW (by decide) (by decide)

end ShiftLight
